import Mathlib

/-!
Verification of the batching-and-retry delivery queue of the logdash node SDK
(`src/queue/RequestQueue.ts`) and the per-item metric transport
(`HttpTransport.sendMetrics` / `HttpTransport.request`).

The queue is embedded as a state machine: the mutable fields of the
`RequestQueue` class become fields of `QueueState`, each public or private
method becomes a pure state transformer, and a run of the (cooperatively
scheduled, serialized-callback) system is a fold of operations over the
initial state.  Two history fields (`dispatched`, `accepted`) record, as
instrumentation only, the batches handed to `sendWithRetry` and the items
accepted by `add`; no transition reads them.

`sendWithRetry` is embedded twice: once as a fuel-indexed pure function
computing the observable trace of the retry loop (number of transport calls,
sleep delays, emitted diagnostic), and once in the `Except` monad, mirroring
the try/catch structure, to reason about error propagation to callers.
-/

namespace Logdash

/-- `RequestQueueOptions` with the defaults of `DEFAULT_OPTIONS`
(`batchSize: 25, flushIntervalMs: 1000, maxRetries: 3, baseRetryDelayMs: 1000`). -/
structure RequestQueueOptions where
  batchSize : Nat := 25
  flushIntervalMs : Nat := 1000
  maxRetries : Nat := 3
  baseRetryDelayMs : Nat := 1000
deriving Repr, DecidableEq

/-- The mutable state of a `RequestQueue<T>`.

* `queue`      — the buffered items (`this.queue`), head first;
* `inFlight`   — the batches owned by currently running `sendWithRetry`
  operations (`this.inFlightPromises`, identified by their batch);
* `timerSet`   — whether a periodic timer is scheduled (`this.flushTimer !== null`);
* `destroyed`  — `this.destroyed`;
* `dispatched` — history: every batch ever handed to `sendWithRetry`, in order;
* `accepted`   — history: every item actually appended by `add`, in order. -/
structure QueueState (T : Type) where
  queue : List T
  inFlight : List (List T)
  timerSet : Bool
  destroyed : Bool
  dispatched : List (List T)
  accepted : List T
deriving Repr, DecidableEq

/-- State right after the constructor ran: empty buffer, no in-flight work,
the periodic timer scheduled by `scheduleFlush`, not destroyed. -/
def initState (T : Type) : QueueState T :=
  { queue := [], inFlight := [], timerSet := true, destroyed := false,
    dispatched := [], accepted := [] }

/-- `flushBatch()`: if the buffer is empty, return; otherwise splice at most
`batchSize` items off the head, start `sendWithRetry` on that batch and track
it in the in-flight set.  `splice(0, n)` removes and returns the first `n`
elements, i.e. `take n` is removed and `drop n` remains. -/
def flushBatch (opts : RequestQueueOptions) (s : QueueState T) : QueueState T :=
  if s.queue.isEmpty then s
  else
    let batch := s.queue.take opts.batchSize
    { s with queue := s.queue.drop opts.batchSize,
             inFlight := s.inFlight ++ [batch],
             dispatched := s.dispatched ++ [batch] }

/-- `add(item)`: no-op when destroyed; otherwise push the item to the tail and,
when the buffer length has reached `batchSize`, trigger `flushBatch`. -/
def add (opts : RequestQueueOptions) (item : T) (s : QueueState T) : QueueState T :=
  if s.destroyed then s
  else
    let s1 := { s with queue := s.queue ++ [item], accepted := s.accepted ++ [item] }
    if opts.batchSize ≤ s1.queue.length then flushBatch opts s1 else s1

/-- `scheduleFlush()`: returns without scheduling when destroyed, otherwise
arms the periodic timer. -/
def scheduleFlush (s : QueueState T) : QueueState T :=
  if s.destroyed then s else { s with timerSet := true }

/-- The periodic timer firing.  A timer that is not armed cannot fire.  The
callback consumes the timer, dispatches one chunk when the buffer is non-empty,
then calls `scheduleFlush` to re-arm (which refuses when destroyed). -/
def timerFire (opts : RequestQueueOptions) (s : QueueState T) : QueueState T :=
  if s.timerSet then
    let s0 := { s with timerSet := false }
    let s1 := if s0.queue.isEmpty then s0 else flushBatch opts s0
    scheduleFlush s1
  else s

/-- The synchronous part of `flush()`: dispatch whatever remains in the buffer
(`if (this.queue.length > 0) this.flushBatch()`). -/
def flushDispatch (opts : RequestQueueOptions) (s : QueueState T) : QueueState T :=
  if s.queue.isEmpty then s else flushBatch opts s

/-- The set of delivery operations `flush()` awaits:
`Array.from(this.inFlightPromises)` is evaluated after the forced dispatch, so
it contains the operation the dispatch itself started. -/
def flushWaitSet (opts : RequestQueueOptions) (s : QueueState T) : List (List T) :=
  (flushDispatch opts s).inFlight

/-- `flush()` has resolved once every operation in its wait set satisfies the
settling predicate (the `Promise.all` in the source resolves once every awaited
promise has settled). -/
def flushResolved (waitSet : List (List T)) (settled : List T → Prop) : Prop :=
  ∀ b ∈ waitSet, settled b

/-- `destroy()`: set the destroyed flag and cancel the periodic timer.  Touches
nothing else. -/
def destroy (s : QueueState T) : QueueState T :=
  { s with destroyed := true, timerSet := false }

/-- A `sendWithRetry` operation settling (the `promise.finally` handler):
its entry is removed from the in-flight set.  Nothing else changes — in
particular the batch is not reinserted into the buffer. -/
def settle (i : Nat) (s : QueueState T) : QueueState T :=
  { s with inFlight := s.inFlight.eraseIdx i }

/-- The serialized callback contexts that can mutate the queue state. -/
inductive Op (T : Type) where
  | add (item : T)
  | timerFire
  | flushCall
  | destroyCall
  | settle (i : Nat)
deriving Repr, DecidableEq

/-- One serialized callback step. -/
def applyOp (opts : RequestQueueOptions) (s : QueueState T) : Op T → QueueState T
  | .add item => add opts item s
  | .timerFire => timerFire opts s
  | .flushCall => flushDispatch opts s
  | .destroyCall => destroy s
  | .settle i => settle i s

/-- A run of the queue: the given callbacks executed in order from the freshly
constructed state. -/
def run (opts : RequestQueueOptions) (ops : List (Op T)) : QueueState T :=
  ops.foldl (applyOp opts) (initState T)

/-! ## The retry loop, as a pure trace function

The transport is an oracle `sendAttempt : Nat → Option E`: the outcome of the
`n`-th call of `sendFn` on this batch (`none` = the promise fulfilled,
`some e` = it rejected with `e`).  The loop
`for (attempt = 0; attempt < maxRetries; attempt++)` is embedded with fuel
`maxRetries - attempt`, which is structurally decreasing. -/

/-- Observable trace of one `sendWithRetry(items)` execution:
* `calls`      — how many times `sendFn` was invoked;
* `delays`     — the sleep durations inserted between attempts, in order;
* `succeeded`  — whether some attempt fulfilled;
* `diagnostic` — the `internalLogger.error` record emitted on exhaustion:
  the attempt count `maxRetries` and the last error (`None` only when the
  loop never ran, i.e. `maxRetries = 0`). -/
structure RetryResult (E : Type) where
  calls : Nat
  delays : List Nat
  succeeded : Bool
  diagnostic : Option (Nat × Option E)
deriving Repr, DecidableEq

/-- The body of the retry loop from a given attempt index, with
`fuel = maxRetries - attempt` iterations remaining.  On success return
immediately; on failure record the error and, when attempts remain
(`attempt < maxRetries - 1`), sleep `baseRetryDelayMs * 2 ^ attempt` before
the next iteration.  When the loop exhausts, emit the diagnostic and return
normally. -/
def retryGo (sendAttempt : Nat → Option E) (maxRetries baseRetryDelayMs : Nat) :
    Nat → Nat → Option E → RetryResult E
  | 0, _, lastError => ⟨0, [], false, some (maxRetries, lastError)⟩
  | fuel + 1, attempt, _ =>
    match sendAttempt attempt with
    | none => ⟨1, [], true, none⟩
    | some e =>
      let rest := retryGo sendAttempt maxRetries baseRetryDelayMs fuel (attempt + 1) (some e)
      let ds := if attempt < maxRetries - 1 then [baseRetryDelayMs * 2 ^ attempt] else []
      ⟨rest.calls + 1, ds ++ rest.delays, rest.succeeded, rest.diagnostic⟩

/-- `sendWithRetry(items)` as a trace: the loop starting at attempt 0 with
`lastError = null`. -/
def sendWithRetry (sendAttempt : Nat → Option E) (maxRetries baseRetryDelayMs : Nat) :
    RetryResult E :=
  retryGo sendAttempt maxRetries baseRetryDelayMs maxRetries 0 none

/-! ## The retry loop and `Promise.all`, in the `Except` monad -/

/-- `sendWithRetry` viewed through error propagation, from a given attempt.
The `try`/`catch` swallows every rejection of `sendFn`; after the loop the
failure is logged "but don't throw to avoid breaking the app". -/
def retryGoExc (sendAttempt : Nat → Except E Unit) : Nat → Nat → Except E Unit
  | 0, _ => Except.ok ()
  | fuel + 1, attempt =>
    match sendAttempt attempt with
    | .ok _ => Except.ok ()
    | .error _ => retryGoExc sendAttempt fuel (attempt + 1)

/-- `sendWithRetry` as seen by whoever awaits its promise. -/
def sendWithRetryExc (sendAttempt : Nat → Except E Unit) (maxRetries : Nat) :
    Except E Unit :=
  retryGoExc sendAttempt maxRetries 0

/-- `Promise.all` over already ordered outcomes: fulfills when all fulfill,
otherwise rejects with the first rejection (settlement order is creation order
in this deterministic model). -/
def promiseAll : List (Except E Unit) → Except E Unit
  | [] => Except.ok ()
  | Except.error e :: _ => Except.error e
  | Except.ok _ :: rest => promiseAll rest

/-! ## The per-item metric transport -/

/-- HTTP method of `HttpTransport.request`. -/
inductive Method where
  | POST
  | PUT
deriving Repr, DecidableEq

/-- One network request issued by `HttpTransport.request(method, path, body)`. -/
structure HttpRequest (B : Type) where
  method : Method
  path : String
  body : B
deriving Repr, DecidableEq

/-- The requests `sendMetrics(metrics)` creates:
`metrics.map((metric) => this.request('PUT', '/metrics', metric))` — one
request per item, each `PUT /metrics` with the item as body, all created
before any is awaited. -/
def sendMetricsRequests (metrics : List M) : List (HttpRequest M) :=
  metrics.map fun m => { method := Method.PUT, path := "/metrics", body := m }

/-- The composite outcome of `sendMetrics(metrics)`: `Promise.all` over the
individual request outcomes, where `outcome m` is how the request for item `m`
settles. -/
def sendMetrics (outcome : M → Except E Unit) (metrics : List M) : Except E Unit :=
  promiseAll (metrics.map outcome)

/-! ## Reachable-state invariant -/

/-- Invariant of every reachable queue state (for a positive batch size):
the buffer stays strictly below the batch threshold (the threshold trigger
drains synchronously inside `add`), every batch handed to `sendWithRetry` is
non-empty, the dispatched batches followed by the current buffer are exactly
the accepted items in order (no loss, no duplication, no reordering), and a
destroyed queue has no armed timer. -/
def Inv (opts : RequestQueueOptions) (s : QueueState T) : Prop :=
  s.queue.length < opts.batchSize ∧
  (∀ b ∈ s.dispatched, b ≠ []) ∧
  s.dispatched.flatten ++ s.queue = s.accepted ∧
  (s.destroyed = true → s.timerSet = false)

lemma flushBatch_empty (opts : RequestQueueOptions) (s : QueueState T)
    (hq : s.queue = []) : flushBatch opts s = s := by
  simp [flushBatch, hq]

lemma flushBatch_small (opts : RequestQueueOptions) (s : QueueState T)
    (h : s.queue.length ≤ opts.batchSize) (hne : s.queue ≠ []) :
    flushBatch opts s =
      { s with queue := [], inFlight := s.inFlight ++ [s.queue],
               dispatched := s.dispatched ++ [s.queue] } := by
  simp [flushBatch, List.isEmpty_iff, hne,
    List.take_of_length_le h, List.drop_eq_nil_of_le h]

lemma inv_flushBatch (opts : RequestQueueOptions) (s : QueueState T)
    (hbs : 1 ≤ opts.batchSize) (hlen : s.queue.length ≤ opts.batchSize)
    (h2 : ∀ b ∈ s.dispatched, b ≠ [])
    (h3 : s.dispatched.flatten ++ s.queue = s.accepted)
    (h4 : s.destroyed = true → s.timerSet = false) :
    Inv opts (flushBatch opts s) := by
  by_cases hq : s.queue = []
  · rw [flushBatch_empty opts s hq]
    refine ⟨?_, h2, h3, h4⟩
    simpa [hq] using hbs
  · rw [flushBatch_small opts s hlen hq]
    refine ⟨by simpa using hbs, ?_, ?_, h4⟩
    · intro b hb
      rcases List.mem_append.mp hb with hb | hb
      · exact h2 b hb
      · simpa using (List.mem_singleton.mp hb) ▸ hq
    · simpa using h3

@[simp] lemma flushBatch_timerSet (opts : RequestQueueOptions) (s : QueueState T) :
    (flushBatch opts s).timerSet = s.timerSet := by
  unfold flushBatch; split <;> rfl

@[simp] lemma flushBatch_destroyed (opts : RequestQueueOptions) (s : QueueState T) :
    (flushBatch opts s).destroyed = s.destroyed := by
  unfold flushBatch; split <;> rfl

@[simp] lemma flushBatch_accepted (opts : RequestQueueOptions) (s : QueueState T) :
    (flushBatch opts s).accepted = s.accepted := by
  unfold flushBatch; split <;> rfl

lemma inv_scheduleFlush (opts : RequestQueueOptions) (s : QueueState T)
    (h1 : s.queue.length < opts.batchSize)
    (h2 : ∀ b ∈ s.dispatched, b ≠ [])
    (h3 : s.dispatched.flatten ++ s.queue = s.accepted)
    (h4 : s.destroyed = true → s.timerSet = false) :
    Inv opts (scheduleFlush s) := by
  unfold scheduleFlush
  split
  · exact ⟨h1, h2, h3, h4⟩
  · next hdes =>
    refine ⟨h1, h2, h3, ?_⟩
    intro hcon
    exact absurd hcon hdes

lemma inv_step (opts : RequestQueueOptions) (s : QueueState T)
    (hbs : 1 ≤ opts.batchSize) (h : Inv opts s) (op : Op T) :
    Inv opts (applyOp opts s op) := by
  obtain ⟨h1, h2, h3, h4⟩ := h
  cases op with
  | add item =>
    show Inv opts (add opts item s)
    cases hd : s.destroyed with
    | true => simpa [add, hd] using ⟨h1, h2, h3, h4⟩
    | false =>
      have h3' : s.dispatched.flatten ++ (s.queue ++ [item]) = s.accepted ++ [item] := by
        rw [← List.append_assoc, h3]
      by_cases ht : opts.batchSize ≤ s.queue.length + 1
      · have := inv_flushBatch opts
          { s with queue := s.queue ++ [item], accepted := s.accepted ++ [item] }
          hbs (by simpa using h1) h2 h3' (by simp [hd])
        simpa [add, hd, ht] using this
      · have hlt : s.queue.length + 1 < opts.batchSize := Nat.lt_of_not_le ht
        have : Inv opts { s with queue := s.queue ++ [item],
                                 accepted := s.accepted ++ [item] } :=
          ⟨by simpa using hlt, h2, h3', by simp [hd]⟩
        simpa [add, hd, ht] using this
  | timerFire =>
    show Inv opts (timerFire opts s)
    cases ht : s.timerSet with
    | false => simpa [timerFire, ht] using ⟨h1, h2, h3, h4⟩
    | true =>
      by_cases hq : s.queue = []
      · have : Inv opts (scheduleFlush { s with timerSet := false }) :=
          inv_scheduleFlush opts _ (by simpa using h1) (by simpa using h2)
            (by simpa using h3) (by intro _; rfl)
        simpa [timerFire, ht, hq] using this
      · have hfb := inv_flushBatch opts { s with timerSet := false } hbs
          (le_of_lt h1) h2 h3 (by intro _; rfl)
        obtain ⟨g1, g2, g3, _⟩ := hfb
        have : Inv opts (scheduleFlush (flushBatch opts { s with timerSet := false })) := by
          apply inv_scheduleFlush opts _ g1 g2 g3
          intro _
          simp
        simpa [timerFire, ht, hq] using this
  | flushCall =>
    show Inv opts (flushDispatch opts s)
    by_cases hq : s.queue = []
    · simpa [flushDispatch, hq] using ⟨h1, h2, h3, h4⟩
    · have := inv_flushBatch opts s hbs (le_of_lt h1) h2 h3 h4
      simpa [flushDispatch, List.isEmpty_iff, hq] using this
  | destroyCall =>
    exact ⟨h1, h2, h3, by intro _; rfl⟩
  | settle i =>
    exact ⟨h1, h2, h3, h4⟩

lemma inv_init (opts : RequestQueueOptions) (hbs : 1 ≤ opts.batchSize) :
    Inv opts (initState T) := by
  refine ⟨by simpa [initState] using hbs, ?_, ?_, ?_⟩ <;> simp [initState]

lemma inv_foldl (opts : RequestQueueOptions) (hbs : 1 ≤ opts.batchSize)
    (ops : List (Op T)) (s : QueueState T) (h : Inv opts s) :
    Inv opts (ops.foldl (applyOp opts) s) := by
  induction ops generalizing s with
  | nil => exact h
  | cons op rest ih => exact ih _ (inv_step opts s hbs h op)

lemma inv_run (opts : RequestQueueOptions) (hbs : 1 ≤ opts.batchSize)
    (ops : List (Op T)) : Inv opts (run opts ops) :=
  inv_foldl opts hbs ops (initState T) (inv_init opts hbs)

/-! ## Lemmas about the retry loop -/

lemma retryGo_calls_le (f : Nat → Option E) (mr bd : Nat) :
    ∀ (fuel attempt : Nat) (le : Option E),
      (retryGo f mr bd fuel attempt le).calls ≤ fuel := by
  intro fuel
  induction fuel with
  | zero => intro _ _; simp [retryGo]
  | succ n ih =>
    intro attempt le
    unfold retryGo
    cases hfa : f attempt with
    | none => simp
    | some e => simpa using ih (attempt + 1) (some e)

lemma retryGo_allfail (f : Nat → Option E) (mr bd : Nat)
    (hfail : ∀ n, (f n).isSome) :
    ∀ (fuel attempt : Nat) (le : Option E),
      (retryGo f mr bd fuel attempt le).calls = fuel ∧
      (retryGo f mr bd fuel attempt le).succeeded = false ∧
      (retryGo f mr bd fuel attempt le).diagnostic =
        some (mr, if fuel = 0 then le else f (attempt + fuel - 1)) := by
  intro fuel
  induction fuel with
  | zero => intro _ _; simp [retryGo]
  | succ n ih =>
    intro attempt le
    obtain ⟨e, he⟩ := Option.isSome_iff_exists.mp (hfail attempt)
    obtain ⟨ih1, ih2, ih3⟩ := ih (attempt + 1) (some e)
    refine ⟨?_, ?_, ?_⟩
    · unfold retryGo; rw [he]; simpa using ih1
    · unfold retryGo; rw [he]; simpa using ih2
    · unfold retryGo; rw [he]
      rcases Nat.eq_zero_or_pos n with hn | hn
      · subst hn
        simp [ih3, he]
      · have hne : n ≠ 0 := Nat.pos_iff_ne_zero.mp hn
        have harith : attempt + 1 + n - 1 = attempt + (n + 1) - 1 := by omega
        simp [ih3, hne, harith]

lemma retryGo_delays_nil (f : Nat → Option E) (mr bd : Nat) :
    ∀ (fuel attempt : Nat) (le : Option E), mr - 1 ≤ attempt →
      (retryGo f mr bd fuel attempt le).delays = [] := by
  intro fuel
  induction fuel with
  | zero => intro _ _ _; simp [retryGo]
  | succ n ih =>
    intro attempt le hle
    unfold retryGo
    cases hfa : f attempt with
    | none => simp
    | some e =>
      have hnotlt : ¬attempt < mr - 1 := Nat.not_lt.mpr hle
      simp [hnotlt, ih (attempt + 1) (some e) (Nat.le_succ_of_le hle)]

lemma retryGo_delays_get (f : Nat → Option E) (mr bd : Nat) :
    ∀ (fuel attempt : Nat) (le : Option E) (i : Nat),
      i < (retryGo f mr bd fuel attempt le).delays.length →
      (retryGo f mr bd fuel attempt le).delays[i]? = some (bd * 2 ^ (attempt + i)) := by
  intro fuel
  induction fuel with
  | zero =>
    intro attempt le i h
    simp [retryGo] at h
  | succ n ih =>
    intro attempt le i h
    rcases hfa : f attempt with _ | e
    · simp only [retryGo, hfa] at h
      simp at h
    · by_cases hlt : attempt < mr - 1
      · simp only [retryGo, hfa, hlt, if_true] at h ⊢
        match i with
        | 0 => simp
        | j + 1 =>
          have hj : j < (retryGo f mr bd n (attempt + 1) (some e)).delays.length := by
            simpa using h
          have harith : attempt + 1 + j = attempt + (j + 1) := by omega
          have := ih (attempt + 1) (some e) j hj
          rw [harith] at this
          simpa using this
      · exfalso
        have hle : mr - 1 ≤ attempt := Nat.not_lt.mp hlt
        simp [retryGo, hfa, hlt,
          retryGo_delays_nil f mr bd n (attempt + 1) (some e)
            (Nat.le_succ_of_le hle)] at h

/-! ## Lemmas about error propagation and `Promise.all` -/

lemma retryGoExc_ok (f : Nat → Except E Unit) :
    ∀ (fuel attempt : Nat), retryGoExc f fuel attempt = Except.ok () := by
  intro fuel
  induction fuel with
  | zero => intro _; rfl
  | succ n ih =>
    intro attempt
    unfold retryGoExc
    cases hfa : f attempt with
    | ok u => simp
    | error e => simpa using ih (attempt + 1)

lemma promiseAll_map_ok (l : List A) (g : A → Except E Unit)
    (hg : ∀ a, g a = Except.ok ()) : promiseAll (l.map g) = Except.ok () := by
  induction l with
  | nil => rfl
  | cons a rest ih => simp [promiseAll, hg a, ih]

lemma promiseAll_eq_error_iff : ∀ rs : List (Except E Unit),
    ((∃ e, promiseAll rs = Except.error e) ↔ ∃ r ∈ rs, ∃ e, r = Except.error e) := by
  intro rs
  induction rs with
  | nil => simp [promiseAll]
  | cons r rest ih =>
    cases r with
    | error e0 => simp [promiseAll]
    | ok u => simpa [promiseAll] using ih

lemma promiseAll_error_first : ∀ (rs : List (Except E Unit)) (e : E),
    promiseAll rs = Except.error e →
    ∃ i, rs[i]? = some (Except.error e) ∧ ∀ r ∈ rs.take i, r.isOk = true := by
  intro rs
  induction rs with
  | nil => intro e h; simp [promiseAll] at h
  | cons r rest ih =>
    intro e h
    cases r with
    | error e0 =>
      have he : e0 = e := by simpa [promiseAll] using h
      exact ⟨0, by simp [he], by simp⟩
    | ok u =>
      obtain ⟨i, h1, h2⟩ := ih e (by simpa [promiseAll] using h)
      refine ⟨i + 1, by simpa using h1, ?_⟩
      intro x hx
      rcases List.mem_cons.mp (by simpa using hx) with hx | hx
      · subst hx; rfl
      · exact h2 x hx

lemma add_step_cases (opts : RequestQueueOptions) (s : QueueState T) (item : T)
    (hd : s.destroyed = false) :
    (¬opts.batchSize ≤ s.queue.length + 1 →
      add opts item s =
        { s with queue := s.queue ++ [item], accepted := s.accepted ++ [item] }) ∧
    (opts.batchSize ≤ s.queue.length + 1 →
      add opts item s =
        { s with queue := (s.queue ++ [item]).drop opts.batchSize,
                 inFlight := s.inFlight ++ [(s.queue ++ [item]).take opts.batchSize],
                 dispatched := s.dispatched ++ [(s.queue ++ [item]).take opts.batchSize],
                 accepted := s.accepted ++ [item] }) := by
  have hne : s.queue ++ [item] ≠ [] := by simp
  constructor
  · intro ht
    simp [add, hd, ht]
  · intro ht
    simp [add, hd, ht, flushBatch, List.isEmpty_iff, hne]

/-! ## Claim theorems -/

/-- C1: on a non-destroyed queue, `add(item)` appends the item to the tail of
the buffer; when the buffer length reaches `batchSize` it extracts exactly one
chunk of at most `batchSize` items from the head (FIFO) and dispatches it —
`take batchSize`, never the entire buffer when it exceeds `batchSize` — and
the concatenation of all dispatched batches followed by the remaining buffer
grows by exactly the one added item, so global insertion order is preserved
without duplication. -/
theorem add_appends_and_dispatches_fifo (T : Type) (opts : RequestQueueOptions)
    (s : QueueState T) (item : T) (hd : s.destroyed = false) :
    (s.queue.length + 1 < opts.batchSize →
      (add opts item s).queue = s.queue ++ [item] ∧
      (add opts item s).dispatched = s.dispatched) ∧
    (opts.batchSize ≤ s.queue.length + 1 →
      (add opts item s).dispatched
        = s.dispatched ++ [(s.queue ++ [item]).take opts.batchSize] ∧
      (add opts item s).queue = (s.queue ++ [item]).drop opts.batchSize ∧
      ((s.queue ++ [item]).take opts.batchSize).length
        = min opts.batchSize (s.queue.length + 1)) ∧
    (add opts item s).dispatched.flatten ++ (add opts item s).queue
      = (s.dispatched.flatten ++ s.queue) ++ [item] := by
  have hne : s.queue ++ [item] ≠ [] := by simp
  refine ⟨?_, ?_, ?_⟩
  · intro hlt
    have ht : ¬opts.batchSize ≤ s.queue.length + 1 := Nat.not_le.mpr hlt
    constructor <;> simp [add, hd, ht]
  · intro ht
    refine ⟨?_, ?_, ?_⟩
    · simp [add, hd, ht, flushBatch, List.isEmpty_iff, hne]
    · simp [add, hd, ht, flushBatch, List.isEmpty_iff, hne]
    · simp [List.length_take]
  · by_cases ht : opts.batchSize ≤ s.queue.length + 1
    · simp only [add, hd, Bool.false_eq_true, if_false, List.length_append,
        List.length_singleton, ht, if_true]
      simp [flushBatch, List.isEmpty_iff, hne, List.append_assoc]
    · simp [add, hd, ht, List.append_assoc]

/-- C1 witness: with `batchSize = 2` and buffer `[5]`, `add 7` dispatches
exactly the chunk `[5, 7]` and empties the buffer, preserving order. -/
theorem add_appends_and_dispatches_fifo_witness :
    (add { batchSize := 2 } 7 ⟨[5], [], true, false, [], [5]⟩).dispatched
      = [] ++ [([5] ++ [7]).take 2] ∧
    (add { batchSize := 2 } 7 ⟨[5], [], true, false, [], [5]⟩).queue
      = ([5] ++ [7]).drop 2 := by
  have h := add_appends_and_dispatches_fifo Nat { batchSize := 2 }
    ⟨[5], [], true, false, [], [5]⟩ 7 rfl
  exact ⟨(h.2.1 (by decide)).1, (h.2.1 (by decide)).2.1⟩

/-- C9: for `batchSize ≥ 1`, in every state reachable from the freshly
constructed (empty) queue the buffer length is strictly below `batchSize`
(every `add` drains its threshold chunk synchronously before returning), and
an `add` that reaches the threshold from such a state dispatches a batch of
exactly `batchSize` items and leaves the buffer empty. -/
theorem buffer_stays_below_batchSize (T : Type) (opts : RequestQueueOptions)
    (hbs : 1 ≤ opts.batchSize) (ops : List (Op T)) :
    (run opts ops).queue.length < opts.batchSize ∧
    (∀ item, opts.batchSize ≤ (run opts ops).queue.length + 1 →
      (run opts ops).destroyed = false →
      (add opts item (run opts ops)).queue = [] ∧
      (add opts item (run opts ops)).dispatched
        = (run opts ops).dispatched ++ [(run opts ops).queue ++ [item]] ∧
      ((run opts ops).queue ++ [item]).length = opts.batchSize) := by
  obtain ⟨h1, _, _, _⟩ := inv_run opts hbs ops
  refine ⟨h1, ?_⟩
  intro item ht hd
  have heq : (run opts ops).queue.length + 1 = opts.batchSize :=
    Nat.le_antisymm (by simpa using h1) ht
  have hlen : ((run opts ops).queue ++ [item]).length ≤ opts.batchSize := by
    simpa using Nat.le_of_eq heq
  have hstep := (add_step_cases opts (run opts ops) item hd).2 ht
  refine ⟨?_, ?_, by simpa using heq⟩
  · rw [hstep]
    simpa using List.drop_eq_nil_of_le hlen
  · rw [hstep]
    simp [List.take_of_length_le hlen]

/-- C9 witness: `batchSize = 2`, after `add 1` the buffer has one item
(below the threshold); a further `add 2` dispatches exactly `[1, 2]`. -/
theorem buffer_stays_below_batchSize_witness :
    (run { batchSize := 2 } [Op.add 1]).queue.length < 2 ∧
    (add { batchSize := 2 } 2 (run { batchSize := 2 } [Op.add 1])).dispatched
      = (run { batchSize := 2 } [Op.add 1]).dispatched
          ++ [(run { batchSize := 2 } [Op.add 1]).queue ++ [2]] := by
  have h := buffer_stays_below_batchSize Nat { batchSize := 2 } (by decide) [Op.add 1]
  exact ⟨h.1, (h.2 2 (by decide) (by decide)).2.1⟩

/-- C10: for `batchSize ≥ 1`, every batch ever handed to the send function in
any reachable state is non-empty, and `flushBatch` — the single dispatch point
shared by the threshold trigger, the periodic timer and `flush()` — returns
without dispatching when the buffer is empty. -/
theorem dispatched_batches_nonempty (T : Type) (opts : RequestQueueOptions)
    (hbs : 1 ≤ opts.batchSize) (ops : List (Op T)) :
    (∀ b ∈ (run opts ops).dispatched, b ≠ []) ∧
    (∀ s : QueueState T, s.queue = [] → flushBatch opts s = s) := by
  obtain ⟨_, h2, _, _⟩ := inv_run opts hbs ops
  exact ⟨h2, fun s hs => flushBatch_empty opts s hs⟩

/-- C10 witness: after threshold dispatch with `batchSize = 1`, the single
dispatched batch `[4]` is non-empty. -/
theorem dispatched_batches_nonempty_witness :
    [4] ∈ (run { batchSize := 1 } [Op.add 4]).dispatched ∧ ([4] : List Nat) ≠ [] := by
  have h := dispatched_batches_nonempty Nat { batchSize := 1 } (by decide) [Op.add 4]
  exact ⟨by decide, h.1 [4] (by decide)⟩

/-- C2: for `maxRetries ≥ 1`, the send function is invoked at most
`maxRetries` times per batch; when every attempt fails, exactly `maxRetries`
calls occur, the operation does not succeed, and the emitted diagnostic
carries the attempt count and the last error; settling an operation only
removes it from the in-flight set — the batch is never reinserted into the
buffer or re-dispatched. -/
theorem sendWithRetry_cap_and_abandon (E : Type) (f : Nat → Option E)
    (mr bd : Nat) (hmr : 1 ≤ mr) :
    (sendWithRetry f mr bd).calls ≤ mr ∧
    ((∀ n, (f n).isSome) →
      (sendWithRetry f mr bd).calls = mr ∧
      (sendWithRetry f mr bd).succeeded = false ∧
      (sendWithRetry f mr bd).diagnostic = some (mr, f (mr - 1))) ∧
    (∀ (T : Type) (s : QueueState T) (i : Nat),
      (settle i s).queue = s.queue ∧
      (settle i s).dispatched = s.dispatched ∧
      (settle i s).inFlight = s.inFlight.eraseIdx i) := by
  refine ⟨retryGo_calls_le f mr bd mr 0 none, ?_, ?_⟩
  · intro hfail
    obtain ⟨h1, h2, h3⟩ := retryGo_allfail f mr bd hfail mr 0 none
    have hmr0 : mr ≠ 0 := Nat.pos_iff_ne_zero.mp hmr
    refine ⟨h1, h2, ?_⟩
    simp [sendWithRetry, h3, hmr0]
  · intro T s i
    exact ⟨rfl, rfl, rfl⟩

/-- C2 witness: an always-failing transport with `maxRetries = 3` yields
exactly 3 calls and the diagnostic `(3, last error)`. -/
theorem sendWithRetry_cap_and_abandon_witness :
    (sendWithRetry (fun _ => (some 0 : Option Nat)) 3 10).calls = 3 ∧
    (sendWithRetry (fun _ => (some 0 : Option Nat)) 3 10).diagnostic
      = some (3, some 0) := by
  have h := sendWithRetry_cap_and_abandon Nat (fun _ => some 0) 3 10 (by decide)
  obtain ⟨-, h2, -⟩ := h
  obtain ⟨hc, -, hdiag⟩ := h2 (fun n => rfl)
  exact ⟨hc, hdiag⟩

/-- C3: the delay inserted after failing attempt `k` (0-based) is exactly
`baseRetryDelayMs * 2 ^ k`, with no jitter: the `i`-th recorded sleep of any
`sendWithRetry` run equals `baseRetryDelayMs * 2 ^ i`; in particular with
`maxRetries = 3` and `baseRetryDelayMs = 10` an always-failing transport
sleeps exactly 10 then 20. -/
theorem sendWithRetry_backoff_exponential (E : Type) (f : Nat → Option E)
    (mr bd : Nat) :
    (∀ i, i < (sendWithRetry f mr bd).delays.length →
      (sendWithRetry f mr bd).delays[i]? = some (bd * 2 ^ i)) ∧
    (sendWithRetry (fun _ => (some () : Option Unit)) 3 10).delays = [10, 20] := by
  constructor
  · intro i h
    simpa using retryGo_delays_get f mr bd mr 0 none i h
  · decide

/-- C3 witness: concrete always-failing run, second delay is `10 * 2 ^ 1`. -/
theorem sendWithRetry_backoff_exponential_witness :
    (sendWithRetry (fun _ => (some () : Option Unit)) 3 10).delays[1]?
      = some (10 * 2 ^ 1) := by
  exact (sendWithRetry_backoff_exponential Unit (fun _ => some ()) 3 10).1 1 (by decide)

/-- C4: for `batchSize ≥ 1` and any reachable state, the dispatch step of
`flush()` empties the buffer (everything remaining fits in one chunk, even
below the threshold); the wait set is captured after that dispatch, so it
contains both the operation the dispatch itself started and every previously
outstanding operation; `flush()` is resolved exactly when every operation of
its wait set has settled; and on an empty, idle queue the wait set is empty,
so `flush()` resolves immediately. -/
theorem flush_drains_and_awaits (T : Type) (opts : RequestQueueOptions)
    (hbs : 1 ≤ opts.batchSize) (ops : List (Op T)) :
    (flushDispatch opts (run opts ops)).queue = [] ∧
    flushWaitSet opts (run opts ops) = (flushDispatch opts (run opts ops)).inFlight ∧
    ((run opts ops).queue ≠ [] →
      (run opts ops).queue ∈ flushWaitSet opts (run opts ops)) ∧
    (∀ b ∈ (run opts ops).inFlight, b ∈ flushWaitSet opts (run opts ops)) ∧
    (∀ P : List T → Prop,
      flushResolved (flushWaitSet opts (run opts ops)) P ↔
        ∀ b ∈ flushWaitSet opts (run opts ops), P b) ∧
    ((run opts ops).queue = [] → (run opts ops).inFlight = [] →
      flushWaitSet opts (run opts ops) = []) := by
  obtain ⟨h1, -, -, -⟩ := inv_run opts hbs ops
  have hle : (run opts ops).queue.length ≤ opts.batchSize := le_of_lt h1
  by_cases hq : (run opts ops).queue = []
  · refine ⟨?_, rfl, fun hne => absurd hq hne, ?_, fun P => Iff.rfl, ?_⟩
    · simp [flushDispatch, hq]
    · intro b hb
      simpa [flushWaitSet, flushDispatch, hq] using hb
    · intro _ hifl
      simp [flushWaitSet, flushDispatch, hq, hifl]
  · have hfd : flushDispatch opts (run opts ops) = flushBatch opts (run opts ops) := by
      simp [flushDispatch, List.isEmpty_iff, hq]
    have hsm := flushBatch_small opts (run opts ops) hle hq
    refine ⟨?_, rfl, ?_, ?_, fun P => Iff.rfl, fun he => absurd he hq⟩
    · rw [hfd, hsm]
    · intro _
      rw [flushWaitSet, hfd, hsm]
      simp [List.take_of_length_le hle]
    · intro b hb
      rw [flushWaitSet, hfd, hsm]
      simp only [List.mem_append]
      exact Or.inl hb

/-- C4 witness: after a single `add 1` (below the default threshold), the
flush dispatch empties the buffer and the batch `[1]` it started is in the
wait set; with no buffered items and no in-flight work the wait set is empty. -/
theorem flush_drains_and_awaits_witness :
    (flushDispatch { } (run { } [Op.add 1])).queue = [] ∧
    [1] ∈ flushWaitSet { } (run { } [Op.add 1]) ∧
    flushWaitSet { } (run ({ } : RequestQueueOptions) ([] : List (Op Nat))) = [] := by
  have h := flush_drains_and_awaits Nat { } (by decide) [Op.add 1]
  have h0 := flush_drains_and_awaits Nat { } (by decide) ([] : List (Op Nat))
  refine ⟨h.1, ?_, h0.2.2.2.2.2 (by decide) (by decide)⟩
  have hmem := h.2.2.1 (by decide)
  have hqeq : (run ({ } : RequestQueueOptions) [Op.add 1]).queue = [1] := by decide
  rw [hqeq] at hmem
  exact hmem

/-- C5 counterexample: `flush()` has no destroyed-check, so it is a
"subsequent operation" that still forms and dispatches a batch after
`destroy()`: with one buffered item, after `destroy()` (`dispatched` still
empty) a `flush()` call dispatches the batch `[1]`. -/
theorem destroyed_flush_still_dispatches :
    (run { batchSize := 25 } [Op.add 1, Op.destroyCall]).destroyed = true ∧
    (run { batchSize := 25 } [Op.add 1, Op.destroyCall]).dispatched = [] ∧
    (applyOp { batchSize := 25 }
        (run { batchSize := 25 } [Op.add 1, Op.destroyCall])
        Op.flushCall).dispatched = [[1]] := by
  refine ⟨by decide, by decide, by decide⟩

/-- C5 (amended): after `destroy()` every subsequent `add()` is a no-op
leaving the whole state unchanged, the periodic timer is disarmed and — since
`scheduleFlush` refuses to re-arm on a destroyed queue — a timer firing is a
no-op that forms no batch and never reschedules.  (A subsequent `flush()`,
however, still dispatches whatever remains in the buffer.) -/
theorem destroyed_add_and_timer_noop (T : Type) (opts : RequestQueueOptions)
    (hbs : 1 ≤ opts.batchSize) (ops : List (Op T))
    (hdes : (run opts ops).destroyed = true) :
    (∀ item, applyOp opts (run opts ops) (Op.add item) = run opts ops) ∧
    applyOp opts (run opts ops) Op.timerFire = run opts ops ∧
    (run opts ops).timerSet = false := by
  obtain ⟨-, -, -, h4⟩ := inv_run opts hbs ops
  have htimer : (run opts ops).timerSet = false := h4 hdes
  refine ⟨?_, ?_, htimer⟩
  · intro item
    simp [applyOp, add, hdes]
  · simp [applyOp, timerFire, htimer]

/-- C5 amended witness: on the concrete destroyed queue with one buffered
item, `add 9` and a timer firing leave the state untouched. -/
theorem destroyed_add_and_timer_noop_witness :
    applyOp { batchSize := 25 }
        (run { batchSize := 25 } [Op.add 1, Op.destroyCall]) (Op.add 9)
      = run { batchSize := 25 } [Op.add 1, Op.destroyCall] ∧
    applyOp { batchSize := 25 }
        (run { batchSize := 25 } [Op.add 1, Op.destroyCall]) Op.timerFire
      = run { batchSize := 25 } [Op.add 1, Op.destroyCall] := by
  have h := destroyed_add_and_timer_noop Nat { batchSize := 25 } (by decide)
    [Op.add 1, Op.destroyCall] (by decide)
  exact ⟨h.1 9, h.2.1⟩

/-- C6: whatever the transport does on every attempt — including rejecting
all of them — `sendWithRetry` settles fulfilled (the catch swallows every
rejection and exhaustion only logs), so `add()` never observes a network
error, and the `Promise.all` that `flush()` awaits, taken over any collection
of such operations, also fulfills: the promise returned by `flush()` never
rejects. -/
theorem no_failure_reaches_caller (E : Type) (mr : Nat) :
    (∀ f : Nat → Except E Unit, sendWithRetryExc f mr = Except.ok ()) ∧
    (∀ fs : List (Nat → Except E Unit),
      promiseAll (fs.map fun f => sendWithRetryExc f mr) = Except.ok ()) := by
  refine ⟨fun f => retryGoExc_ok f mr 0, fun fs => ?_⟩
  exact promiseAll_map_ok fs _ (fun f => retryGoExc_ok f mr 0)

/-- C7: `destroy()` is idempotent — a second call leaves the state of the
first — and its only effects are setting the destroyed flag and cancelling
the periodic timer: the buffer, the in-flight set and the dispatch history
are untouched, so in-flight deliveries are neither awaited nor cancelled. -/
theorem destroy_idempotent_and_minimal (T : Type) (s : QueueState T) :
    destroy (destroy s) = destroy s ∧
    (destroy s).queue = s.queue ∧
    (destroy s).inFlight = s.inFlight ∧
    (destroy s).dispatched = s.dispatched ∧
    (destroy s).accepted = s.accepted ∧
    (destroy s).destroyed = true ∧
    (destroy s).timerSet = false :=
  ⟨rfl, rfl, rfl, rfl, rfl, rfl, rfl⟩

/-- C8: for a non-empty batch of metrics, `sendMetrics` creates exactly one
request per item — the request at position `i` is a `PUT` to `/metrics`
carrying metric `i` as body, and all requests are created before any outcome
is consumed — and the composite operation fails if and only if at least one
individual request fails, reporting the first failure (every earlier request
having succeeded). -/
theorem sendMetrics_per_item_put (M E : Type) (metrics : List M)
    (outcome : M → Except E Unit) (hne : metrics ≠ []) :
    (sendMetricsRequests metrics).length = metrics.length ∧
    (∀ (i : Nat) (r : HttpRequest M), (sendMetricsRequests metrics)[i]? = some r →
      r.method = Method.PUT ∧ r.path = "/metrics" ∧ metrics[i]? = some r.body) ∧
    ((∃ e, sendMetrics outcome metrics = Except.error e) ↔
      ∃ m ∈ metrics, ∃ e, outcome m = Except.error e) ∧
    (∀ e, sendMetrics outcome metrics = Except.error e →
      ∃ i, (metrics.map outcome)[i]? = some (Except.error e) ∧
        ∀ r ∈ (metrics.map outcome).take i, r.isOk = true) := by
  refine ⟨by simp [sendMetricsRequests], ?_, ?_, ?_⟩
  · intro i r hr
    rw [sendMetricsRequests, List.getElem?_map] at hr
    cases hm : metrics[i]? with
    | none => rw [hm] at hr; simp at hr
    | some m =>
      rw [hm] at hr
      have hr2 := Option.some.inj hr
      subst hr2
      exact ⟨rfl, rfl, rfl⟩
  · rw [sendMetrics]
    rw [promiseAll_eq_error_iff (metrics.map outcome)]
    constructor
    · rintro ⟨r, hr, e, rfl⟩
      obtain ⟨m, hm, hout⟩ := List.mem_map.mp hr
      exact ⟨m, hm, e, hout⟩
    · rintro ⟨m, hm, e, hout⟩
      exact ⟨outcome m, List.mem_map.mpr ⟨m, hm, rfl⟩, e, hout⟩
  · intro e he
    exact promiseAll_error_first (metrics.map outcome) e he

/-- C8 witness: a two-metric batch where the first request succeeds and the
second fails: two `PUT /metrics` requests, and the composite fails with the
failure of the second request, the first having succeeded. -/
theorem sendMetrics_per_item_put_witness :
    (sendMetricsRequests [10, 20]).length = 2 ∧
    ((∃ e, sendMetrics
        (fun m => if m = 20 then Except.error "boom" else Except.ok ()) [10, 20]
          = Except.error e) ↔
      ∃ m ∈ [10, 20], ∃ e,
        (fun m => if m = 20 then Except.error "boom" else Except.ok ()) m
          = Except.error e) := by
  have h := sendMetrics_per_item_put Nat String [10, 20]
    (fun m => if m = 20 then Except.error "boom" else Except.ok ()) (by decide)
  exact ⟨h.1, h.2.2.1⟩

end Logdash
